import Mathlib

/-!
Verification development for the Hack-Roll audio-processing backend.

The definitions below are a shallow embedding of the Python sources:
  * `backend/services/transcription.py`  (corrections, target-word counting)
  * `backend/services/transcription_cache.py`  (chunk transcription cache)
  * `backend/processor.py`  (pipeline orchestration, aggregation, persistence)
  * `backend/worker.py`  (retry loop, dead-lettering)

Times and durations are modelled with exact rationals, machine text with
`String`/`List Char`.  Regular-expression operations from the source are
modelled by explicit recursive scanners with the same left-to-right,
non-overlapping match semantics as Python's `re.sub`/`re.findall` on the
literal or character-class patterns the source uses.
-/

set_option maxRecDepth 8000

namespace HackRoll

/-! ### Character classes used by the source's regular expressions -/

/-- The character class `[a-zA-Z]`. -/
def isAsciiAlpha (c : Char) : Bool :=
  ('a' ≤ c && c ≤ 'z') || ('A' ≤ c && c ≤ 'Z')

/-- Python's `\w` on ASCII input: letters, digits or underscore. -/
def isWordChar (c : Char) : Bool :=
  isAsciiAlpha c || ('0' ≤ c && c ≤ '9') || c = '_'

/-- Python's `\s` on ASCII input: space, tab, newline, carriage return,
vertical tab, form feed. -/
def isPySpace (c : Char) : Bool :=
  c = ' ' || c = '\t' || c = '\n' || c.toNat = 13 || c.toNat = 11 || c.toNat = 12

/-- Case-insensitive test that `s` starts with the (lowercase) pattern `key`,
mirroring a match of `re.escape(key)` with `re.IGNORECASE` at the current
position. -/
def startsWithCI : List Char → List Char → Bool
  | [], _ => true
  | _ :: _, [] => false
  | k :: ks, c :: cs => (k == c.toLower) && startsWithCI ks cs

/-! ### `re.sub` with a literal pattern (CORRECTIONS replacement)

`replaceCIAux` scans left to right; on a match it emits the replacement and
resumes after the matched span of the original text, exactly as `re.sub`
does.  The `Nat` argument is evaluation fuel; one unit is spent per step and
every step consumes at least one character of the remaining input, so
`s.length` fuel always suffices. -/

def replaceCIAux (key rep : List Char) : Nat → List Char → List Char
  | 0, s => s
  | _ + 1, [] => []
  | fuel + 1, c :: cs =>
    if !key.isEmpty && startsWithCI key (c :: cs) then
      rep ++ replaceCIAux key rep fuel ((c :: cs).drop key.length)
    else
      c :: replaceCIAux key rep fuel cs

/-- `re.sub(re.escape(key), rep, s, flags=re.IGNORECASE)` for nonempty
all-lowercase `key`. -/
def replaceCI (key rep s : List Char) : List Char :=
  replaceCIAux key rep s.length s

/-! ### `re.sub` with `\b...\b` word boundaries (WORD_CORRECTIONS) -/

/-- `\b` before an all-letter pattern: start of text, or previous original
character not a word character. -/
def boundaryBeforeOk (prev : Option Char) : Bool :=
  match prev with
  | none => true
  | some p => !isWordChar p

/-- `\b` after an all-letter pattern: end of text, or next character not a
word character. -/
def boundaryAfterOk (rest : List Char) : Bool :=
  match rest with
  | [] => true
  | c :: _ => !isWordChar c

/-- Scanner for `re.sub(r'\b' + re.escape(key) + r'\b', rep, s, re.IGNORECASE)`.
`prev` is the original character just before the current position (matching
and boundary tests are on the original text, as in `re.sub`). -/
def replaceWordAux (key rep : List Char) : Nat → Option Char → List Char → List Char
  | 0, _, s => s
  | _ + 1, _, [] => []
  | fuel + 1, prev, c :: cs =>
    if !key.isEmpty && boundaryBeforeOk prev && startsWithCI key (c :: cs) &&
        boundaryAfterOk ((c :: cs).drop key.length) then
      rep ++ replaceWordAux key rep fuel (((c :: cs).take key.length).getLast?)
        ((c :: cs).drop key.length)
    else
      c :: replaceWordAux key rep fuel (some c) cs

def replaceWordCI (key rep s : List Char) : List Char :=
  replaceWordAux key rep s.length none s

/-! ### `re.findall` with letter lookarounds (target word counting)

Pattern `(?<![a-zA-Z])word(?![a-zA-Z])`: counts non-overlapping matches,
resuming after each matched span. -/

def alphaFreeAfter (rest : List Char) : Bool :=
  match rest with
  | [] => true
  | c :: _ => !isAsciiAlpha c

/-- `(?<![a-zA-Z])`: start of text or previous character not a letter. -/
def alphaFreeBefore (prev : Option Char) : Bool :=
  match prev with
  | none => true
  | some p => !isAsciiAlpha p

def countOccAux (w : List Char) : Nat → Option Char → List Char → Nat
  | 0, _, _ => 0
  | _ + 1, _, [] => 0
  | fuel + 1, prev, c :: cs =>
    if !w.isEmpty && alphaFreeBefore prev && startsWithCI w (c :: cs) &&
        alphaFreeAfter ((c :: cs).drop w.length) then
      1 + countOccAux w fuel (((c :: cs).take w.length).getLast?) ((c :: cs).drop w.length)
    else
      countOccAux w fuel (some c) cs

def countOcc (w s : List Char) : Nat :=
  countOccAux w s.length none s

/-! ### `_normalize_for_matching` (services/transcription.py lines 654-680) -/

/-- Split a character list at its first `')'`, returning the part before it
and the part after it. -/
def splitAtRParen : List Char → Option (List Char × List Char)
  | [] => none
  | c :: cs =>
    if c = ')' then some ([], cs)
    else
      match splitAtRParen cs with
      | none => none
      | some (a, b) => some (c :: a, b)

/-- Scanner for `re.sub(r'!\(([^)]+)\)!', r'\1', s)`.  At each position: the
pattern matches when the text reads `!(`, then at least one non-`)`
character, then `)!`; since `[^)]+` cannot cross a `)`, the closing paren is
necessarily the first one after the content, so matching is deterministic. -/
def replaceExclParenAux : Nat → List Char → List Char
  | 0, s => s
  | _ + 1, [] => []
  | fuel + 1, c :: cs =>
    if c = '!' then
      match cs with
      | '(' :: rest =>
        (match splitAtRParen rest with
         | some (content, '!' :: rest2) =>
           if content.isEmpty then c :: replaceExclParenAux fuel cs
           else content ++ replaceExclParenAux fuel rest2
         | _ => c :: replaceExclParenAux fuel cs)
      | _ => c :: replaceExclParenAux fuel cs
    else c :: replaceExclParenAux fuel cs

def replaceExclParen (s : List Char) : List Char :=
  replaceExclParenAux s.length s

/-- Scanner for `re.sub(r'\(([a-zA-Z]+)\)', r'\1', s)`: a `(`, a nonempty
maximal run of letters, then `)` (a shorter run would be followed by a
letter, not `)`, so the greedy run is the only candidate). -/
def replaceParenWordAux : Nat → List Char → List Char
  | 0, s => s
  | _ + 1, [] => []
  | fuel + 1, c :: cs =>
    if c = '(' then
      match cs.takeWhile isAsciiAlpha, cs.dropWhile isAsciiAlpha with
      | letters@(_ :: _), ')' :: rest2 => letters ++ replaceParenWordAux fuel rest2
      | _, _ => c :: replaceParenWordAux fuel cs
    else c :: replaceParenWordAux fuel cs

def replaceParenWord (s : List Char) : List Char :=
  replaceParenWordAux s.length s

/-- Scanner for `re.sub(r'\s+', ' ', s)`: each maximal whitespace run becomes
one space. -/
def collapseSpacesAux : Nat → List Char → List Char
  | 0, s => s
  | _ + 1, [] => []
  | fuel + 1, c :: cs =>
    if isPySpace c then ' ' :: collapseSpacesAux fuel (cs.dropWhile isPySpace)
    else c :: collapseSpacesAux fuel cs

def collapseSpaces (s : List Char) : List Char :=
  collapseSpacesAux s.length s

/-- Python `str.strip()` on ASCII whitespace. -/
def stripChars (s : List Char) : List Char :=
  ((s.dropWhile isPySpace).reverse.dropWhile isPySpace).reverse

/-- `_normalize_for_matching(text)`: exclamation brackets, parenthesised
words, whitespace collapsing, then strip.  Empty text is returned as is. -/
def normalizeForMatching (s : List Char) : List Char :=
  if s.isEmpty then s
  else stripChars (collapseSpaces (replaceParenWord (replaceExclParen s)))

/-! ### Correction dictionaries (services/transcription.py lines 351-651)

Transcribed in Python dict insertion order; `CORRECTIONS` is applied after a
stable sort by key length, descending, `WORD_CORRECTIONS` in insertion
order. -/

def CORRECTIONS : List (String × String) :=
  [("while up", "walao"), ("wah lao eh", "walao"), ("wa lao eh", "walao"),
   ("wah lao", "walao"), ("wa lao", "walao"), ("wah low", "walao"),
   ("wa low", "walao"), ("while ah", "walao"), ("wah lau", "walao"),
   ("wa lau", "walao"), ("wah liao", "walao"), ("wa liao", "walao"),
   ("while low", "walao"), ("wah lei", "walao"), ("why lao", "walao"),
   ("why low", "walao"), ("wah la", "walao"),
   ("cheap buy", "cheebai"), ("chee bye", "cheebai"), ("chi bye", "cheebai"),
   ("chee bai", "cheebai"), ("chi bai", "cheebai"), ("chee by", "cheebai"),
   ("chi by", "cheebai"), ("cb", "cheebai"), ("c b", "cheebai"),
   ("see bee", "cheebai"),
   ("lunch hour", "lanjiao"), ("lan jiao", "lanjiao"), ("lan chow", "lanjiao"),
   ("lan chiao", "lanjiao"), ("lun jiao", "lanjiao"), ("lan chio", "lanjiao"),
   ("lunchow", "lanjiao"), ("lan jio", "lanjiao"),
   ("can nina", "kanina"), ("kar ni na", "kanina"), ("ka ni na", "kanina"),
   ("car nina", "kanina"), ("knn", "kanina"), ("k n n", "kanina"),
   ("nah bay", "nabei"), ("na bei", "nabei"), ("nah bei", "nabei"),
   ("na beh", "nabei"), ("nah beh", "nabei"),
   ("pie say", "paiseh"), ("pai seh", "paiseh"), ("pie seh", "paiseh"),
   ("pai say", "paiseh"), ("pie se", "paiseh"), ("pai se", "paiseh"),
   ("paise", "paiseh"),
   ("shook", "shiok"), ("she ok", "shiok"), ("shoe ok", "shiok"),
   ("shi ok", "shiok"), ("shio", "shiok"),
   ("ala mak", "alamak"), ("allah mak", "alamak"), ("a la mak", "alamak"),
   ("allamak", "alamak"), ("aller mak", "alamak"),
   ("ai yo", "aiyo"), ("ai yoh", "aiyo"), ("aiya", "aiyah"), ("ai ya", "aiyah"),
   ("eye yo", "aiyo"), ("aye yo", "aiyo"), ("ai yah", "aiyah"),
   ("eye yah", "aiyah"),
   ("jia lat", "jialat"), ("gia lat", "jialat"), ("jia lut", "jialat"),
   ("jee ah lat", "jialat"), ("gia lut", "jialat"),
   ("bo jio", "bojio"), ("boh jio", "bojio"), ("bo gio", "bojio"),
   ("never jio", "bojio"), ("boh gio", "bojio"),
   ("see ya", "sia"), ("see ah", "sia"), ("siah", "sia"), ("si ah", "sia"),
   ("see an", "sian"), ("si an", "sian"), ("see en", "sian"), ("si en", "sian"),
   ("kia su", "kiasu"), ("key ah su", "kiasu"), ("kia si", "kiasi"),
   ("key ah si", "kiasi"),
   ("boh doh", "bodoh"), ("bo doh", "bodoh"),
   ("sua ku", "suaku"), ("swah ku", "suaku"),
   ("le pak", "lepak"), ("lay pak", "lepak"),
   ("chop", "chope"),
   ("ma kan", "makan"),
   ("go stan", "gostan"), ("go stun", "gostan"),
   ("si bei", "sibei"), ("see bay", "sibei"), ("si bay", "sibei"),
   ("ah tas", "atas"), ("ar tas", "atas"),
   ("kay poh", "kaypoh"), ("kae poh", "kaypoh"), ("kpo", "kaypoh"),
   ("steady pom pi pi", "steady"),
   ("goon du", "goondu"), ("gun du", "goondu")]

def WORD_CORRECTIONS : List (String × String) :=
  [("la", "lah"), ("laa", "lah"), ("laaa", "lah"), ("low", "lor"),
   ("loh", "lor"), ("leh", "lah"), ("ler", "lah"), ("seh", "sia"),
   ("mah", "meh"), ("huh", "hor"), ("arh", "ah")]

def TARGET_WORDS : List String :=
  ["walao", "cheebai", "lanjiao", "kanina", "nabei",
   "lah", "lor", "sia", "meh", "leh", "hor", "ah", "one", "what", "lei", "ma",
   "wah", "eh", "aiyo", "aiyah", "alamak",
   "can", "cannot", "paiseh", "shiok", "sian", "bodoh", "kiasu", "kiasi",
   "bojio", "suaku", "lepak", "blur", "goondu",
   "chope", "kena", "makan", "tahan", "gostan", "cabut", "sabo", "arrow",
   "sibei", "buay", "jialat",
   "kopi", "teh", "peng",
   "atas", "kaypoh", "steady", "power", "liao"]

/-! ### `apply_corrections` and `count_target_words`
(services/transcription.py lines 683-764) -/

/-- Stable insertion step for Python's `sorted(..., key=len(key),
reverse=True)`: an element inserted from the left (earlier in the original
order) is placed before any element of equal key length. -/
def insertDesc (x : String × String) : List (String × String) → List (String × String)
  | [] => [x]
  | y :: ys =>
    if y.1.length ≤ x.1.length then x :: y :: ys
    else y :: insertDesc x ys

def sortByLenDesc (l : List (String × String)) : List (String × String) :=
  l.foldr insertDesc []

def applyCorrectionsL (text : List Char) : List Char :=
  if text.isEmpty then text
  else
    let r0 := normalizeForMatching text
    let r1 := (sortByLenDesc CORRECTIONS).foldl
      (fun r p => replaceCI p.1.toList p.2.toList r) r0
    WORD_CORRECTIONS.foldl (fun r p => replaceWordCI p.1.toList p.2.toList r) r1

def applyCorrections (text : String) : String :=
  ⟨applyCorrectionsL text.toList⟩

/-- `count_target_words(text)`: a Python dict in insertion order, one entry
per target word with at least one match in the lowercased, normalized
text. -/
def countTargetWordsL (text : List Char) : List (String × Nat) :=
  if text.isEmpty then []
  else
    let normalized := normalizeForMatching (text.map Char.toLower)
    TARGET_WORDS.filterMap (fun w =>
      let n := countOcc w.toList normalized
      if 0 < n then some (w, n) else none)

def countTargetWords (text : String) : List (String × Nat) :=
  countTargetWordsL text.toList

/-! ### Transcription cache (services/transcription_cache.py, models.py lines 201-204)

A `ChunkTranscription` row.  `transcribed_at` is an abstract timestamp,
`duration_seconds` an exact rational. -/

structure CacheRow where
  session_id : String
  chunk_number : Nat
  raw_text : Option String := none
  corrected_text : Option String := none
  word_counts : Option (List (String × Nat)) := none
  duration_seconds : Option ℚ := none
  transcribed_at : Option Nat := none
  error_message : Option String := none
deriving DecidableEq

/-- Python slicing `s[:500]` used for stored error messages. -/
def truncate500 (s : String) : String :=
  ⟨s.data.take 500⟩

def rowKeyMatches (sid : String) (n : Nat) (r : CacheRow) : Bool :=
  r.session_id == sid && r.chunk_number == n

/-- Mutate the single ORM object returned by `.first()`: update the first row
satisfying `p`, leave everything else untouched. -/
def updateFirst (p : CacheRow → Bool) (f : CacheRow → CacheRow) : List CacheRow → List CacheRow
  | [] => []
  | r :: rs => if p r then f r :: rs else r :: updateFirst p f rs

/-- Field writes of the success path of `transcribe_chunk_background`
(lines 96-101): raw text, corrected text, word counts, duration, timestamp,
and `error_message = None`. -/
def successUpdate (raw : String) (dur : ℚ) (now : Nat) (r : CacheRow) : CacheRow :=
  { r with raw_text := some raw,
           corrected_text := some (applyCorrections raw),
           word_counts := some (countTargetWords (applyCorrections raw)),
           duration_seconds := some dur,
           transcribed_at := some now,
           error_message := none }

/-- `transcribe_chunk_background` (lines 42-138) as a transition on the cache
table.  `outcome` is the result of the external `transcribe_audio` call
(which happens after the idempotency check and before any row write);
corrections and word counting are the embedded pure functions.  On failure
the handler re-queries and records the truncated error message. -/
def transcribeChunkBackground (table : List CacheRow) (sid : String) (n : Nat)
    (dur : ℚ) (now : Nat) (outcome : Except String String) : List CacheRow :=
  match table.find? (rowKeyMatches sid n) with
  | some existing =>
    if existing.transcribed_at.isSome then table
    else
      match outcome with
      | .ok raw => updateFirst (rowKeyMatches sid n) (successUpdate raw dur now) table
      | .error e => updateFirst (rowKeyMatches sid n)
          (fun r => { r with error_message := some (truncate500 e) }) table
  | none =>
    match outcome with
    | .ok raw => table ++ [successUpdate raw dur now { session_id := sid, chunk_number := n }]
    | .error e => table ++ [{ session_id := sid, chunk_number := n,
                              error_message := some (truncate500 e) }]

/-- `get_cached_transcriptions` (lines 141-160): rows of the session whose
`transcribed_at` is not null. -/
def getCachedTranscriptions (table : List CacheRow) (sid : String) : List CacheRow :=
  table.filter (fun r => r.session_id == sid && r.transcribed_at.isSome)

/-! ### Chunk timeline and `get_text_for_time_range`
(services/transcription_cache.py lines 163-226) -/

structure AudioChunk where
  chunk_number : Nat
  duration_seconds : Option ℚ
deriving DecidableEq

/-- `float(chunk.duration_seconds or 30.0)`: Python `or` replaces a null or
zero duration by the 30-second default and keeps any other value. -/
def chunkDuration (d : Option ℚ) : ℚ :=
  match d with
  | none => 30
  | some x => if x = 0 then 30 else x

/-- Stable insertion step for Python's `sorted(chunks, key=chunk_number)`. -/
def insertByNumber (c : AudioChunk) : List AudioChunk → List AudioChunk
  | [] => [c]
  | d :: ds =>
    if c.chunk_number ≤ d.chunk_number then c :: d :: ds
    else d :: insertByNumber c ds

def sortChunks (l : List AudioChunk) : List AudioChunk :=
  l.foldr insertByNumber []

/-- One entry of the `chunk_times` list: chunk number and cumulative
start/end offsets. -/
structure ChunkTime where
  number : Nat
  tstart : ℚ
  tend : ℚ
deriving DecidableEq

def buildChunkTimesAux : ℚ → List AudioChunk → List ChunkTime
  | _, [] => []
  | t, c :: cs =>
    ⟨c.chunk_number, t, t + chunkDuration c.duration_seconds⟩ ::
      buildChunkTimesAux (t + chunkDuration c.duration_seconds) cs

def buildChunkTimes (chunks : List AudioChunk) : List ChunkTime :=
  buildChunkTimesAux 0 (sortChunks chunks)

/-- The per-chunk contribution to `coverage` accumulated by the loop at
lines 207-214: the overlap duration when the overlap is nonempty. -/
def coverage (cts : List ChunkTime) (s e : ℚ) : ℚ :=
  (cts.map (fun ct =>
    if max ct.tstart s < min ct.tend e then min ct.tend e - max ct.tstart s else 0)).sum

/-- The `overlapping_text` list accumulated by the same loop (lines 216-220):
for each overlapping chunk present in the cache, its corrected text when
that text is truthy (non-null and nonempty). -/
def overlapTexts (cached : Nat → Option CacheRow) (cts : List ChunkTime) (s e : ℚ) :
    List String :=
  cts.filterMap (fun ct =>
    if max ct.tstart s < min ct.tend e then
      match cached ct.number with
      | some row =>
        match row.corrected_text with
        | some t => if t = "" then none else some t
        | none => none
      | none => none
    else none)

def joinSpace : List String → String :=
  String.intercalate " "

/-- `get_text_for_time_range(cached, chunks, start_time, end_time)`.  The
`cached` dict is a partial map from chunk number to cache row. -/
def getTextForTimeRange (cached : Nat → Option CacheRow) (chunks : List AudioChunk)
    (s e : ℚ) : Option String :=
  match chunks with
  | [] => none
  | _ :: _ =>
    let cts := buildChunkTimes chunks
    if e - s ≤ 0 then none
    else if coverage cts s e / (e - s) < (4 : ℚ) / 5 then none
    else
      let texts := overlapTexts cached cts s e
      if texts.isEmpty then none else some (joinSpace texts)

/-! ### `transcribe_and_count` (processor.py lines 333-461)

Word-count aggregation.  Python `defaultdict` nesting is modelled by
association lists in insertion order; a key is only created when a nonzero
item is actually added, matching `speaker_word_counts[sid][word] += count`
executed inside a loop over `word_counts.items()`. -/

structure SpeakerSegment where
  speaker_id : String
  start_time : ℚ
  end_time : ℚ
deriving DecidableEq

abbrev WordCounts := List (String × Nat)

abbrev SpeakerCounts := List (String × WordCounts)

def addCount : WordCounts → String → Nat → WordCounts
  | [], w, n => [(w, n)]
  | (w', c) :: rest, w, n =>
    if w' = w then (w', c + n) :: rest else (w', c) :: addCount rest w n

def addCounts (m : WordCounts) (wc : WordCounts) : WordCounts :=
  wc.foldl (fun acc p => addCount acc p.1 p.2) m

def addSpeakerEntry : SpeakerCounts → String → WordCounts → SpeakerCounts
  | [], sid, wc => [(sid, addCounts [] wc)]
  | (s, m) :: rest, sid, wc =>
    if s = sid then (s, addCounts m wc) :: rest
    else (s, m) :: addSpeakerEntry rest sid wc

/-- `for word, count in word_counts.items(): speaker_word_counts[sid][word] += count`:
with an empty item list the defaultdict is never touched. -/
def addSpeakerCounts (sc : SpeakerCounts) (sid : String) (wc : WordCounts) : SpeakerCounts :=
  if wc.isEmpty then sc else addSpeakerEntry sc sid wc

/-- Split `segments` into `(cached_segments, uncached_segments)` (lines
374-381), preserving order.  A segment is cached when
`get_text_for_time_range` returns a (necessarily nonempty) text. -/
def classifySegments (cached : Nat → Option CacheRow) (chunks : List AudioChunk) :
    List SpeakerSegment → List (SpeakerSegment × String) × List SpeakerSegment
  | [] => ([], [])
  | seg :: rest =>
    let p := classifySegments cached chunks rest
    match getTextForTimeRange cached chunks seg.start_time seg.end_time with
    | some t => ((seg, t) :: p.1, p.2)
    | none => (p.1, seg :: p.2)

/-- Per-segment processing shared by both branches: corrections then target
word counting. -/
def segmentCounts (text : String) : WordCounts :=
  countTargetWords (applyCorrections text)

/-- The cached-segment loop (lines 389-397). -/
def processCachedSegments (acc : SpeakerCounts) (l : List (SpeakerSegment × String)) :
    SpeakerCounts :=
  l.foldl (fun acc p => addSpeakerCounts acc p.1.speaker_id (segmentCounts p.2)) acc

/-- `transcribe_segment` (lines 405-427): on success the corrected and
counted transcription, on any exception the pair `(speaker_id, empty)`.
`oracle` stands for the external extraction + ASR call. -/
def transcribeSegmentResult (oracle : SpeakerSegment → Except String String)
    (seg : SpeakerSegment) : String × WordCounts :=
  match oracle seg with
  | .ok raw => (seg.speaker_id, segmentCounts raw)
  | .error _ => (seg.speaker_id, [])

/-- The uncached-batch aggregation loop (lines 437-454), merging results in
submission order. -/
def processUncachedSegments (acc : SpeakerCounts) (l : List SpeakerSegment)
    (oracle : SpeakerSegment → Except String String) : SpeakerCounts :=
  l.foldl (fun acc seg =>
    let r := transcribeSegmentResult oracle seg
    addSpeakerCounts acc r.1 r.2) acc

/-- The final value of `speaker_word_counts` returned by
`transcribe_and_count`. -/
def transcribeAndCountAgg (cached : Nat → Option CacheRow) (chunks : List AudioChunk)
    (segments : List SpeakerSegment) (oracle : SpeakerSegment → Except String String) :
    SpeakerCounts :=
  let p := classifySegments cached chunks segments
  processUncachedSegments (processCachedSegments [] p.1) p.2 oracle

/-! ### `save_speaker_results` (processor.py lines 464-527) -/

/-- A `SessionSpeaker` row; the generated id is identified with the (unique)
speaker label. -/
structure SessionSpeakerRow where
  speaker_label : String
  segment_count : Nat
deriving DecidableEq

/-- A `SpeakerWordCount` row, referencing its `SessionSpeaker` by label. -/
structure WordCountRow where
  speaker_label : String
  word : String
  count : Nat
deriving DecidableEq

/-- `speaker_results.get(speaker_id, dict())`. -/
def lookupCounts (sr : SpeakerCounts) (sid : String) : WordCounts :=
  match sr.lookup sid with
  | some wc => wc
  | none => []

/-- The set `all_speaker_ids` (lines 485-488): keys of `speaker_results`
together with the speaker ids of the diarized segments, one occurrence
each.  (Python set iteration order is unspecified; the claims proved below
are order-independent.) -/
def allSpeakerIds (sr : SpeakerCounts) (segments : List SpeakerSegment) : List String :=
  (sr.map Prod.fst ++ segments.map SpeakerSegment.speaker_id).dedup

/-- One `SessionSpeaker` row (lines 492-506): segment count from the
diarization segments, falling back to the summed word counts when the
speaker has no segment. -/
def mkSpeakerRow (sr : SpeakerCounts) (segments : List SpeakerSegment) (sid : String) :
    SessionSpeakerRow :=
  let segCount := (segments.filter (fun t => t.speaker_id == sid)).length
  ⟨sid, if 0 < segCount then segCount else ((lookupCounts sr sid).map Prod.snd).sum⟩

/-- `save_speaker_results`: the inserted `SessionSpeaker` rows and
`SpeakerWordCount` rows. -/
def saveSpeakerResults (sr : SpeakerCounts) (segments : List SpeakerSegment) :
    List SessionSpeakerRow × List WordCountRow :=
  let ids := allSpeakerIds sr segments
  (ids.map (mkSpeakerRow sr segments),
   ids.flatMap (fun sid => (lookupCounts sr sid).map (fun p => ⟨sid, p.1, p.2⟩)))

/-! ### `process_session` (processor.py lines 82-211) -/

/-- The summary dict returned by `process_session`: the zero-segment
short-circuit returns speakers 0, segments 0 and an empty word map (line
136); the full pipeline returns speaker, segment and word totals plus the
per-speaker counts (lines 180-188). -/
inductive ProcSummary where
  | empty
  | completed (speakers segments total_words : Nat) (per_speaker : SpeakerCounts)
deriving DecidableEq

def summarySpeakers : ProcSummary → Nat
  | .empty => 0
  | .completed s _ _ _ => s

def summarySegments : ProcSummary → Nat
  | .empty => 0
  | .completed _ g _ _ => g

def totalWords (sr : SpeakerCounts) : Nat :=
  (sr.map (fun p => (p.2.map Prod.snd).sum)).sum

/-- Observable outcome of one successful `process_session` run: final
session status and progress, rows inserted, summary returned, and the list
of pipeline stages that were entered. -/
structure PipelineResult where
  status : String
  progress : Nat
  speakers : List SessionSpeakerRow
  wordRows : List WordCountRow
  summary : ProcSummary
  stagesRun : List String
deriving DecidableEq

/-- `process_session` after a successful concatenation and diarization
returning `segments`.  With zero segments the run short-circuits at lines
131-136; otherwise the remaining stages run and the session ends
`ready_for_claiming` at progress 100. -/
def processSessionModel (cached : Nat → Option CacheRow) (chunks : List AudioChunk)
    (segments : List SpeakerSegment) (oracle : SpeakerSegment → Except String String) :
    PipelineResult :=
  if segments.isEmpty then
    { status := "ready_for_claiming", progress := 100, speakers := [], wordRows := [],
      summary := .empty, stagesRun := ["concatenating", "diarizing"] }
  else
    let sr := transcribeAndCountAgg cached chunks segments oracle
    let rows := saveSpeakerResults sr segments
    { status := "ready_for_claiming", progress := 100,
      speakers := rows.1, wordRows := rows.2,
      summary := .completed rows.1.length segments.length (totalWords sr) sr,
      stagesRun := ["concatenating", "diarizing", "transcribing", "saving_results",
                    "generating_samples"] }

/-! ### Progress accounting (processor.py lines 68-74, 214-224, 399-456) -/

/-- `PROGRESS_STAGES.get(stage, (0, 100))`. -/
def PROGRESS_STAGES (stage : String) : Nat × Nat :=
  if stage = "concatenating" then (0, 10)
  else if stage = "diarizing" then (10, 40)
  else if stage = "transcribing" then (40, 85)
  else if stage = "saving_results" then (85, 95)
  else if stage = "generating_samples" then (95, 100)
  else (0, 100)

/-- `update_progress`: `overall = start + (end - start) * stage_progress // 100`. -/
def updateProgressVal (stage : String) (p : Nat) : Nat :=
  (PROGRESS_STAGES stage).1 + ((PROGRESS_STAGES stage).2 - (PROGRESS_STAGES stage).1) * p / 100

def stageNames : List String :=
  ["concatenating", "diarizing", "transcribing", "saving_results", "generating_samples"]

/-- `cached_progress = len(cached_segments) * 100 // max(total_segments, 1)`
(line 400), with `total = c + u`. -/
def cachedStageLocal (c total : Nat) : Nat := c * 100 / max total 1

/-- `progress = (len(cached_segments) + i + 1) * 100 // total_segments`
(line 453) for the uncached result at index `i`. -/
def resultStageLocal (c total i : Nat) : Nat := (c + i + 1) * 100 / total

/-- The sequence of values written to `Session.progress` during one
successful run with `c` cached segments and `u` uncached segments, where
`succ` lists (in enumeration order) the indices of the uncached results that
were not exceptions: the initial reset to 0, the stage boundary updates, the
cached-coverage update, one update per successful uncached result, and the
final write of 100. -/
def runProgressWrites (c u : Nat) (succ : List Nat) : List Nat :=
  [0,
   updateProgressVal "concatenating" 0, updateProgressVal "concatenating" 100,
   updateProgressVal "diarizing" 0, updateProgressVal "diarizing" 100,
   updateProgressVal "transcribing" 0,
   updateProgressVal "transcribing" (cachedStageLocal c (c + u))]
  ++ succ.map (fun i => updateProgressVal "transcribing" (resultStageLocal c (c + u) i))
  ++ [updateProgressVal "transcribing" 100, updateProgressVal "transcribing" 100,
      updateProgressVal "saving_results" 0, updateProgressVal "saving_results" 100,
      updateProgressVal "generating_samples" 0, updateProgressVal "generating_samples" 100,
      100]

/-- The progress writes of the zero-segment short-circuit (lines 112-136). -/
def shortCircuitWrites : List Nat :=
  [0, updateProgressVal "concatenating" 0, updateProgressVal "concatenating" 100,
   updateProgressVal "diarizing" 0, updateProgressVal "diarizing" 100, 100]

/-! ### Worker retry loop (worker.py lines 64-213) -/

def MAX_RETRIES : Nat := 3

def RETRY_DELAY_BASE : Nat := 5

/-- Observable outcome of `process_job` on one job: number of attempts made,
the sleeps performed between attempts, whether the job succeeded, and the
`update_session_failure` write (status `failed` plus truncated message)
performed on final failure. -/
structure JobOutcome where
  attempts : Nat
  delays : List Nat
  success : Bool
  sessionMarkedFailed : Bool
  errorUpdate : Option String
deriving DecidableEq

/-- The retry loop `for attempt in range(1, MAX_RETRIES + 1)` (lines
162-213).  `f attempt` is the outcome of `process_session_sync` on that
attempt; the fuel equals the number of remaining loop iterations. -/
def processJobGo (f : Nat → Except String Unit) : Nat → Nat → JobOutcome
  | attempt, 0 => ⟨attempt - 1, [], false, false, none⟩
  | attempt, fuel + 1 =>
    match f attempt with
    | .ok _ => ⟨attempt, [], true, false, none⟩
    | .error e =>
      if attempt < MAX_RETRIES then
        let d := RETRY_DELAY_BASE * 2 ^ (attempt - 1)
        let r := processJobGo f (attempt + 1) fuel
        ⟨r.attempts, d :: r.delays, r.success, r.sessionMarkedFailed, r.errorUpdate⟩
      else
        ⟨attempt, [], false, true, some (truncate500 e)⟩

def processJob (f : Nat → Except String Unit) : JobOutcome :=
  processJobGo f 1 MAX_RETRIES

/-- The main worker loop's reaction to `process_job` (lines 310-322): a
failed job's raw payload is `lpush`ed onto the failed (dead-letter) queue. -/
def deadLetterAfter (payload : String) (failedQueue : List String)
    (o : JobOutcome) : List String :=
  if o.success then failedQueue else payload :: failedQueue

/-! ### Example data for the cache-hit scenario of the specification -/

def exampleRow1 : CacheRow :=
  { session_id := "s", chunk_number := 1, corrected_text := some "lah lah",
    transcribed_at := some 1 }

def exampleRow2 : CacheRow :=
  { session_id := "s", chunk_number := 2, corrected_text := some "walao",
    transcribed_at := some 2 }

def exampleCached : Nat → Option CacheRow := fun n =>
  if n = 1 then some exampleRow1 else if n = 2 then some exampleRow2 else none

def exampleChunks : List AudioChunk := [⟨1, some 30⟩, ⟨2, some 30⟩]

def exampleSegment : SpeakerSegment := ⟨"SPEAKER_00", 0, 58⟩

/-- An "oracle" for the external ASR call that always raises. -/
def alwaysFail : SpeakerSegment → Except String String := fun _ => .error "asr down"

/-- A job whose every attempt raises. -/
def allFailBoom : Nat → Except String Unit := fun _ => .error "boom"

/-! ## Theorems -/

/-! ### C2 — worker retry policy -/

/-- C2 counterexample: on a job whose every attempt raises, the worker makes
its attempts with sleeps of 5s and 10s only; the delay list is not the
claimed 5s, 10s, 20s (a 20-second backoff never occurs, since after the
third failed attempt the loop dead-letters instead of sleeping). -/
theorem c2_counterexample :
    (processJob allFailBoom).delays = [5, 10] ∧
    (processJob allFailBoom).delays ≠ [5, 10, 20] := by
  constructor <;> decide

/-- C2 (amended): a job whose processing raises on each attempt is attempted
exactly 3 times, with delays of 5s and 10s between consecutive attempts (no
20s delay ever occurs); after the third failure the session is marked failed
with the error message truncated to at most 500 characters, and the worker
loop pushes the raw job payload onto the dead-letter queue. -/
theorem c2_retry_policy (f : Nat → Except String Unit) (msg : Nat → String)
    (hf : ∀ n, f n = .error (msg n)) (payload : String) (fq : List String) :
    processJob f =
      { attempts := 3, delays := [5, 10], success := false,
        sessionMarkedFailed := true, errorUpdate := some (truncate500 (msg 3)) } ∧
    deadLetterAfter payload fq (processJob f) = payload :: fq ∧
    (truncate500 (msg 3)).length ≤ 500 := by
  have h : processJob f =
      { attempts := 3, delays := [5, 10], success := false,
        sessionMarkedFailed := true, errorUpdate := some (truncate500 (msg 3)) } := by
    simp [processJob, MAX_RETRIES, processJobGo, hf 1, hf 2, hf 3, RETRY_DELAY_BASE]
  refine ⟨h, ?_, ?_⟩
  · simp [deadLetterAfter, h]
  · exact List.length_take_le _ _

theorem c2_retry_policy_witness :
    processJob allFailBoom =
      { attempts := 3, delays := [5, 10], success := false,
        sessionMarkedFailed := true, errorUpdate := some (truncate500 "boom") } ∧
    deadLetterAfter "payload" [] (processJob allFailBoom) = ["payload"] ∧
    (truncate500 "boom").length ≤ 500 :=
  c2_retry_policy allFailBoom (fun _ => "boom") (fun _ => rfl) "payload" []

/-! ### C5 — per-segment failures are absorbed, not fatal -/

/-- C5: a failing segment in the uncached batch is caught (its result is the
pair of its speaker id and the empty count dict) and contributes nothing to
the aggregation: the aggregate over the batch equals the aggregate over the
batch without that segment, so the other segments' counts are still merged
per speaker. -/
theorem c5_partial_failure (acc : SpeakerCounts) (xs ys : List SpeakerSegment)
    (seg : SpeakerSegment) (oracle : SpeakerSegment → Except String String)
    (e : String) (herr : oracle seg = .error e) :
    transcribeSegmentResult oracle seg = (seg.speaker_id, []) ∧
    processUncachedSegments acc (xs ++ seg :: ys) oracle =
      processUncachedSegments acc (xs ++ ys) oracle := by
  constructor
  · simp [transcribeSegmentResult, herr]
  · simp [processUncachedSegments, List.foldl_append, transcribeSegmentResult, herr,
      addSpeakerCounts]

theorem c5_partial_failure_witness :
    transcribeSegmentResult alwaysFail exampleSegment = ("SPEAKER_00", []) ∧
    processUncachedSegments [] ([⟨"A", 0, 1⟩] ++ exampleSegment :: [⟨"B", 1, 2⟩]) alwaysFail =
      processUncachedSegments [] ([⟨"A", 0, 1⟩] ++ [⟨"B", 1, 2⟩]) alwaysFail :=
  c5_partial_failure [] [⟨"A", 0, 1⟩] [⟨"B", 1, 2⟩] exampleSegment alwaysFail "asr down" rfl

/-! ### C6 — zero-segment short-circuit -/

/-- C6: when diarization returns zero segments, `process_session` ends the
run directly with status `ready_for_claiming` and progress 100, inserts no
`SessionSpeaker` (and no word-count) rows, runs none of the later stages,
and returns a summary reporting 0 speakers and 0 segments. -/
theorem c6_zero_segments (cached : Nat → Option CacheRow) (chunks : List AudioChunk)
    (oracle : SpeakerSegment → Except String String) :
    processSessionModel cached chunks [] oracle =
      { status := "ready_for_claiming", progress := 100, speakers := [], wordRows := [],
        summary := .empty, stagesRun := ["concatenating", "diarizing"] } ∧
    summarySpeakers (processSessionModel cached chunks [] oracle).summary = 0 ∧
    summarySegments (processSessionModel cached chunks [] oracle).summary = 0 ∧
    "transcribing" ∉ (processSessionModel cached chunks [] oracle).stagesRun ∧
    "saving_results" ∉ (processSessionModel cached chunks [] oracle).stagesRun ∧
    "generating_samples" ∉ (processSessionModel cached chunks [] oracle).stagesRun := by
  have h : processSessionModel cached chunks [] oracle =
      { status := "ready_for_claiming", progress := 100, speakers := [], wordRows := [],
        summary := .empty, stagesRun := ["concatenating", "diarizing"] } := rfl
  refine ⟨h, rfl, rfl, ?_, ?_, ?_⟩ <;> (rw [h]; decide)

/-! ### C7 — cache-hit path on the specification's example -/

unseal Rat.add Rat.sub Rat.mul Rat.inv in
lemma exampleGetText_eval :
    getTextForTimeRange exampleCached exampleChunks 0 58 = some "lah lah walao" := by
  decide

unseal Rat.add Rat.sub Rat.mul Rat.inv in
lemma exampleClassify_eval :
    classifySegments exampleCached exampleChunks [exampleSegment] =
      ([(exampleSegment, "lah lah walao")], []) := by
  decide

/-! ### C1 — the coverage rule is not an equivalence -/

/-- The empty cache dict. -/
def noCache : Nat → Option CacheRow := fun _ => none

/-- A single uploaded 30-second chunk. -/
def oneChunk30 : List AudioChunk := [⟨1, some 30⟩]

unseal Rat.add Rat.sub Rat.mul Rat.inv in
lemma c1_eval_none : getTextForTimeRange noCache oneChunk30 0 10 = none := by
  decide

unseal Rat.add Rat.sub Rat.mul Rat.inv in
lemma c1_eval_coverage : coverage (buildChunkTimes oneChunk30) 0 10 = 10 := by
  decide

/-- C1 counterexample: for the segment from 0s to 10s over a single
30-second chunk with an empty cache dict, the coverage ratio is 1 (at least
0.8) and yet no cached text is used — `get_text_for_time_range` returns
`None` because no overlapping chunk has cached corrected text.  So "uses
cached text if and only if the ratio is at least 0.8" fails right to left. -/
theorem c1_counterexample :
    (0 : ℚ) < 10 - 0 ∧
    (4 : ℚ) / 5 ≤ coverage (buildChunkTimes oneChunk30) 0 10 / (10 - 0) ∧
    getTextForTimeRange noCache oneChunk30 0 10 = none := by
  refine ⟨by norm_num, ?_, c1_eval_none⟩
  rw [c1_eval_coverage]
  norm_num

/-- C1 (amended): for a segment of positive duration, cached text is used if
and only if the coverage ratio (total overlap of the segment with the chunk
timeline, divided by the segment duration) is at least 0.8 AND at least one
overlapping chunk has nonempty cached corrected text.  In particular a
ratio of exactly 0.8 passes the coverage gate and any smaller ratio is a
miss. -/
theorem c1_cache_hit_iff (cached : Nat → Option CacheRow) (chunks : List AudioChunk)
    (s e : ℚ) (hdur : 0 < e - s) :
    (getTextForTimeRange cached chunks s e).isSome = true ↔
      ((4 : ℚ) / 5 ≤ coverage (buildChunkTimes chunks) s e / (e - s) ∧
       overlapTexts cached (buildChunkTimes chunks) s e ≠ []) := by
  cases chunks with
  | nil =>
    simp only [getTextForTimeRange, Option.isSome_none, Bool.false_eq_true, false_iff,
      buildChunkTimes, sortChunks, List.foldr_nil, buildChunkTimesAux, coverage,
      List.map_nil, List.sum_nil, zero_div]
    intro h
    norm_num at h
  | cons c cs =>
    show (if e - s ≤ 0 then none
      else if coverage (buildChunkTimes (c :: cs)) s e / (e - s) < (4 : ℚ) / 5 then none
      else
        let texts := overlapTexts cached (buildChunkTimes (c :: cs)) s e
        if texts.isEmpty then none else some (joinSpace texts)).isSome = true ↔ _
    rw [if_neg (not_le.mpr hdur)]
    by_cases hc : coverage (buildChunkTimes (c :: cs)) s e / (e - s) < (4 : ℚ) / 5
    · rw [if_pos hc]
      simp only [Option.isSome_none, Bool.false_eq_true, false_iff, not_and]
      intro hge
      exact absurd hc (not_lt.mpr hge)
    · rw [if_neg hc]
      show (if (overlapTexts cached (buildChunkTimes (c :: cs)) s e).isEmpty then none
        else some (joinSpace (overlapTexts cached (buildChunkTimes (c :: cs)) s e))).isSome
          = true ↔ _
      by_cases ht : (overlapTexts cached (buildChunkTimes (c :: cs)) s e).isEmpty
      · rw [if_pos ht]
        simp only [Option.isSome_none, Bool.false_eq_true, false_iff, not_and]
        intro _
        simpa using List.isEmpty_iff.mp ht
      · rw [if_neg ht]
        simp only [Option.isSome_some, true_iff]
        refine ⟨not_lt.mp hc, fun h => ?_⟩
        rw [h] at ht
        exact ht rfl

theorem c1_cache_hit_iff_witness :
    (getTextForTimeRange exampleCached exampleChunks 0 58).isSome = true ↔
      ((4 : ℚ) / 5 ≤ coverage (buildChunkTimes exampleChunks) 0 58 / (58 - 0) ∧
       overlapTexts exampleCached (buildChunkTimes exampleChunks) 0 58 ≠ []) :=
  c1_cache_hit_iff exampleCached exampleChunks 0 58 (by norm_num)

/-! ### C7 — what a cache hit actually yields -/

lemma mem_insertByNumber {c x : AudioChunk} {l : List AudioChunk} :
    x ∈ insertByNumber c l ↔ x = c ∨ x ∈ l := by
  induction l with
  | nil => simp [insertByNumber]
  | cons d ds ih =>
    rw [insertByNumber]
    by_cases h : c.chunk_number ≤ d.chunk_number
    · rw [if_pos h]
      simp
    · rw [if_neg h]
      rw [List.mem_cons, ih, List.mem_cons]
      tauto

lemma insertByNumber_pairwise (c : AudioChunk) (l : List AudioChunk)
    (h : l.Pairwise (fun a b => a.chunk_number ≤ b.chunk_number)) :
    (insertByNumber c l).Pairwise (fun a b => a.chunk_number ≤ b.chunk_number) := by
  induction l with
  | nil => exact List.pairwise_singleton _ _
  | cons d ds ih =>
    rcases List.pairwise_cons.mp h with ⟨hd, hds⟩
    rw [insertByNumber]
    by_cases hc : c.chunk_number ≤ d.chunk_number
    · rw [if_pos hc]
      refine List.pairwise_cons.mpr ⟨?_, h⟩
      intro x hx
      rcases List.mem_cons.mp hx with rfl | hx
      · exact hc
      · exact le_trans hc (hd x hx)
    · rw [if_neg hc]
      refine List.pairwise_cons.mpr ⟨?_, ih hds⟩
      intro x hx
      rcases mem_insertByNumber.mp hx with rfl | hx
      · omega
      · exact hd x hx

lemma sortChunks_pairwise (l : List AudioChunk) :
    (sortChunks l).Pairwise (fun a b => a.chunk_number ≤ b.chunk_number) := by
  induction l with
  | nil => exact List.Pairwise.nil
  | cons c cs ih => exact insertByNumber_pairwise c (sortChunks cs) ih

lemma buildChunkTimesAux_numbers (t : ℚ) (l : List AudioChunk) :
    (buildChunkTimesAux t l).map ChunkTime.number = l.map AudioChunk.chunk_number := by
  induction l generalizing t with
  | nil => rfl
  | cons c cs ih =>
    rw [buildChunkTimesAux, List.map_cons, List.map_cons, ih]

/-- The chunk timeline lists the chunks in ascending `chunk_number` order,
so a concatenation that follows the timeline is a concatenation in chunk
order. -/
lemma buildChunkTimes_numbers_sorted (chunks : List AudioChunk) :
    ((buildChunkTimes chunks).map ChunkTime.number).Pairwise (· ≤ ·) := by
  rw [buildChunkTimes, buildChunkTimesAux_numbers]
  exact (sortChunks_pairwise chunks).map _ (fun a b h => h)

/-- Whenever `get_text_for_time_range` returns a text, that text is the
space-join of the `overlapping_text` list: the nonempty cached corrected
texts of the overlapping chunks, collected in timeline order. -/
lemma getText_eq_join (cached : Nat → Option CacheRow) (chunks : List AudioChunk)
    (s e : ℚ) (t : String) (h : getTextForTimeRange cached chunks s e = some t) :
    t = joinSpace (overlapTexts cached (buildChunkTimes chunks) s e) := by
  cases chunks with
  | nil => cases h
  | cons c cs =>
    revert h
    show (if e - s ≤ 0 then none
      else if coverage (buildChunkTimes (c :: cs)) s e / (e - s) < (4 : ℚ) / 5 then none
      else if (overlapTexts cached (buildChunkTimes (c :: cs)) s e).isEmpty then none
        else some (joinSpace (overlapTexts cached (buildChunkTimes (c :: cs)) s e)))
        = some t → _
    split_ifs with h1 h2 h3
    · intro h
      cases h
    · intro h
      cases h
    · intro h
      cases h
    · intro h
      exact (Option.some.inj h).symm

/-- Every segment placed in the uncached list (and hence sent to the
external transcription call) is one for which the cache lookup returned no
text. -/
lemma uncached_miss (cached : Nat → Option CacheRow) (chunks : List AudioChunk)
    (segments : List SpeakerSegment) (seg : SpeakerSegment)
    (hseg : seg ∈ (classifySegments cached chunks segments).2) :
    getTextForTimeRange cached chunks seg.start_time seg.end_time = none := by
  induction segments with
  | nil => exact absurd hseg (List.not_mem_nil seg)
  | cons s0 rest ih =>
    rw [classifySegments] at hseg
    cases hg : getTextForTimeRange cached chunks s0.start_time s0.end_time with
    | some t0 =>
      simp only [hg] at hseg
      exact ih hseg
    | none =>
      simp only [hg] at hseg
      rcases List.mem_cons.mp hseg with rfl | hmem
      · exact hg
      · exact ih hmem

unseal Rat.add Rat.sub Rat.mul Rat.inv in
lemma c7_classify_eval :
    classifySegments noCache oneChunk30 [⟨"S0", 0, 10⟩] = ([], [⟨"S0", 0, 10⟩]) := by
  decide

/-- C7 counterexample: for the segment from 0s to 10s over a single
30-second chunk with an empty cache dict, the coverage ratio is 1 (at least
0.8, a "cache hit" in the claim's sense), and yet the segment is classified
uncached — an external transcription call IS made for it and its transcript
is not any concatenation of cached chunk text (the lookup returns `None`).
So the claim's universal clause fails as stated. -/
theorem c7_counterexample :
    (4 : ℚ) / 5 ≤ coverage (buildChunkTimes oneChunk30) 0 10 / (10 - 0) ∧
    getTextForTimeRange noCache oneChunk30 0 10 = none ∧
    (classifySegments noCache oneChunk30 [⟨"S0", 0, 10⟩]).2 = [⟨"S0", 0, 10⟩] := by
  refine ⟨?_, c1_eval_none, by rw [c7_classify_eval]⟩
  rw [c1_eval_coverage]
  norm_num

/-- C7 (amended): when a segment is a cache hit in the code's sense — the
lookup returns a text, i.e. coverage ratio at least 0.8 and at least one
overlapping chunk with nonempty cached corrected text — its transcript is
the corrected_text of the overlapping cached chunks concatenated in
chunk_number order (the timeline driving the concatenation is sorted by
chunk number), and no external transcription call is made for it: every
segment handed to the external call is one for which the lookup returned no
text.  In particular, for two 30s chunks with cached corrected text
"lah lah" and "walao" and a segment from 0s to 58s, the resulting text is
"lah lah walao" and the counted words are walao once and lah twice. -/
theorem c7_cache_hit_amended :
    (∀ (cached : Nat → Option CacheRow) (chunks : List AudioChunk) (s e : ℚ) (t : String),
      getTextForTimeRange cached chunks s e = some t →
        t = joinSpace (overlapTexts cached (buildChunkTimes chunks) s e)) ∧
    (∀ (cached : Nat → Option CacheRow) (chunks : List AudioChunk)
        (segments : List SpeakerSegment) (seg : SpeakerSegment),
      seg ∈ (classifySegments cached chunks segments).2 →
        getTextForTimeRange cached chunks seg.start_time seg.end_time = none) ∧
    (∀ chunks : List AudioChunk,
      ((buildChunkTimes chunks).map ChunkTime.number).Pairwise (· ≤ ·)) ∧
    getTextForTimeRange exampleCached exampleChunks 0 58 = some "lah lah walao" ∧
    joinSpace ["lah lah", "walao"] = "lah lah walao" ∧
    classifySegments exampleCached exampleChunks [exampleSegment] =
      ([(exampleSegment, "lah lah walao")], []) ∧
    (∀ oracle, transcribeAndCountAgg exampleCached exampleChunks [exampleSegment] oracle =
      [("SPEAKER_00", [("walao", 1), ("lah", 2)])]) ∧
    (transcribeAndCountAgg exampleCached exampleChunks [exampleSegment] alwaysFail).lookup
      "SPEAKER_00" = some [("walao", 1), ("lah", 2)] := by
  have hagg : ∀ oracle,
      transcribeAndCountAgg exampleCached exampleChunks [exampleSegment] oracle =
        [("SPEAKER_00", [("walao", 1), ("lah", 2)])] := by
    intro oracle
    rw [transcribeAndCountAgg, exampleClassify_eval]
    show processCachedSegments [] [(exampleSegment, "lah lah walao")] = _
    decide
  refine ⟨getText_eq_join, uncached_miss, buildChunkTimes_numbers_sorted,
    exampleGetText_eval, by decide, exampleClassify_eval, hagg, ?_⟩
  rw [hagg alwaysFail]
  decide

theorem c7_cache_hit_amended_witness :
    "lah lah walao" = joinSpace (overlapTexts exampleCached (buildChunkTimes exampleChunks) 0 58) ∧
    getTextForTimeRange noCache oneChunk30
      ((⟨"S0", 0, 10⟩ : SpeakerSegment).start_time)
      ((⟨"S0", 0, 10⟩ : SpeakerSegment).end_time) = none :=
  ⟨c7_cache_hit_amended.1 exampleCached exampleChunks 0 58 "lah lah walao" exampleGetText_eval,
   c7_cache_hit_amended.2.1 noCache oneChunk30 [⟨"S0", 0, 10⟩] ⟨"S0", 0, 10⟩
     (by rw [c7_classify_eval]; exact List.mem_cons_self _ _)⟩

/-! ### C10 — default chunk duration and the degenerate-segment guard -/

/-- Replace a null (or zero) stored duration by the 30-second default and
keep any other value — exactly what `chunk.duration_seconds or 30.0`
evaluates to. -/
def defaultDur30 (c : AudioChunk) : AudioChunk :=
  ⟨c.chunk_number,
   match c.duration_seconds with
   | none => some 30
   | some x => if x = 0 then some 30 else some x⟩

lemma chunkDuration_defaultDur30 (c : AudioChunk) :
    chunkDuration (defaultDur30 c).duration_seconds = chunkDuration c.duration_seconds := by
  rcases c with ⟨n, d⟩
  cases d with
  | none => simp [defaultDur30, chunkDuration]
  | some x =>
    by_cases hx : x = 0 <;> simp [defaultDur30, chunkDuration, hx]

lemma insertByNumber_map_defaultDur30 (c : AudioChunk) (l : List AudioChunk) :
    insertByNumber (defaultDur30 c) (l.map defaultDur30) =
      (insertByNumber c l).map defaultDur30 := by
  induction l with
  | nil => rfl
  | cons d ds ih =>
    show (if (defaultDur30 c).chunk_number ≤ (defaultDur30 d).chunk_number then
        defaultDur30 c :: defaultDur30 d :: ds.map defaultDur30
      else defaultDur30 d :: insertByNumber (defaultDur30 c) (ds.map defaultDur30)) =
      (if c.chunk_number ≤ d.chunk_number then c :: d :: ds
        else d :: insertByNumber c ds).map defaultDur30
    by_cases h : c.chunk_number ≤ d.chunk_number
    · rw [if_pos h,
        if_pos (show (defaultDur30 c).chunk_number ≤ (defaultDur30 d).chunk_number from h)]
      rfl
    · rw [if_neg h,
        if_neg (show ¬(defaultDur30 c).chunk_number ≤ (defaultDur30 d).chunk_number from h),
        List.map_cons, ih]

lemma sortChunks_map_defaultDur30 (l : List AudioChunk) :
    sortChunks (l.map defaultDur30) = (sortChunks l).map defaultDur30 := by
  induction l with
  | nil => rfl
  | cons c cs ih =>
    show insertByNumber (defaultDur30 c) (sortChunks (cs.map defaultDur30)) = _
    rw [ih, insertByNumber_map_defaultDur30]
    rfl

lemma buildChunkTimesAux_map_defaultDur30 (t : ℚ) (l : List AudioChunk) :
    buildChunkTimesAux t (l.map defaultDur30) = buildChunkTimesAux t l := by
  induction l generalizing t with
  | nil => rfl
  | cons c cs ih =>
    show buildChunkTimesAux t (defaultDur30 c :: cs.map defaultDur30) = _
    rw [buildChunkTimesAux, buildChunkTimesAux, chunkDuration_defaultDur30,
      defaultDur30, ih]

lemma buildChunkTimes_map_defaultDur30 (l : List AudioChunk) :
    buildChunkTimes (l.map defaultDur30) = buildChunkTimes l := by
  rw [buildChunkTimes, buildChunkTimes, sortChunks_map_defaultDur30,
    buildChunkTimesAux_map_defaultDur30]

/-- C10: (1) when building the chunk timeline every chunk whose stored
duration is null or zero is treated as lasting the default 30 seconds — the
timeline, and hence the whole cache lookup including its coverage ratio, is
unchanged when such durations are replaced by an explicit 30; (2) a segment
with `end_time ≤ start_time` never returns cached text (the coverage
division is guarded by the `segment_duration ≤ 0` check). -/
theorem c10_default_duration_and_guard :
    (∀ (cached : Nat → Option CacheRow) (chunks : List AudioChunk) (s e : ℚ),
      getTextForTimeRange cached (chunks.map defaultDur30) s e =
        getTextForTimeRange cached chunks s e) ∧
    (∀ (cached : Nat → Option CacheRow) (chunks : List AudioChunk) (s e : ℚ),
      e ≤ s → getTextForTimeRange cached chunks s e = none) := by
  constructor
  · intro cached chunks s e
    cases chunks with
    | nil => rfl
    | cons c cs =>
      show (if e - s ≤ 0 then none
        else if coverage (buildChunkTimes ((c :: cs).map defaultDur30)) s e / (e - s) <
            (4 : ℚ) / 5 then none
        else
          let texts := overlapTexts cached (buildChunkTimes ((c :: cs).map defaultDur30)) s e
          if texts.isEmpty then none else some (joinSpace texts)) = _
      rw [buildChunkTimes_map_defaultDur30]
      rfl
  · intro cached chunks s e h
    cases chunks with
    | nil => rfl
    | cons c cs =>
      show (if e - s ≤ 0 then none
        else if coverage (buildChunkTimes (c :: cs)) s e / (e - s) < (4 : ℚ) / 5 then none
        else
          let texts := overlapTexts cached (buildChunkTimes (c :: cs)) s e
          if texts.isEmpty then none else some (joinSpace texts)) = none
      rw [if_pos (by linarith : e - s ≤ 0)]

theorem c10_witness :
    getTextForTimeRange noCache (oneChunk30.map defaultDur30) 0 10 =
      getTextForTimeRange noCache oneChunk30 0 10 ∧
    (10 : ℚ) ≤ 10 ∧
    getTextForTimeRange noCache oneChunk30 10 10 = none :=
  ⟨c10_default_duration_and_guard.1 noCache oneChunk30 0 10, le_refl 10,
   c10_default_duration_and_guard.2 noCache oneChunk30 10 10 (by norm_num)⟩

/-! ### C8 and C9 — cache idempotence, uniqueness and error rows -/

/-- The unique-constraint key of a cache row. -/
def keyOf (r : CacheRow) : String × Nat := (r.session_id, r.chunk_number)

/-- The `(session_id, chunk_number)` unique index: no two rows share a key. -/
def UniqueKeys (t : List CacheRow) : Prop :=
  t.Pairwise (fun a b => keyOf a ≠ keyOf b)

/-- Every successfully transcribed row has a null error message. -/
def ErrorFree (t : List CacheRow) : Prop :=
  ∀ r ∈ t, r.transcribed_at.isSome = true → r.error_message = none

lemma updateFirst_mem {p : CacheRow → Bool} {f : CacheRow → CacheRow}
    {l : List CacheRow} {b : CacheRow} (hb : b ∈ updateFirst p f l) :
    b ∈ l ∨ ∃ a, l.find? p = some a ∧ b = f a := by
  induction l with
  | nil => simp [updateFirst] at hb
  | cons r rs ih =>
    rw [updateFirst] at hb
    by_cases hr : p r = true
    · rw [if_pos hr] at hb
      rcases List.mem_cons.mp hb with h | h
      · exact Or.inr ⟨r, by rw [List.find?_cons_of_pos _ hr], h⟩
      · exact Or.inl (List.mem_cons_of_mem _ h)
    · rw [if_neg hr] at hb
      rcases List.mem_cons.mp hb with h | h
      · exact Or.inl (h ▸ List.mem_cons_self _ _)
      · rcases ih h with h' | ⟨a, ha, hfa⟩
        · exact Or.inl (List.mem_cons_of_mem _ h')
        · refine Or.inr ⟨a, ?_, hfa⟩
          rw [List.find?_cons_of_neg _ hr]
          exact ha

lemma updateFirst_uniqueKeys (p : CacheRow → Bool) (f : CacheRow → CacheRow)
    (hf : ∀ r, keyOf (f r) = keyOf r) (l : List CacheRow) (h : UniqueKeys l) :
    UniqueKeys (updateFirst p f l) := by
  induction l with
  | nil => simpa [updateFirst] using h
  | cons r rs ih =>
    rcases List.pairwise_cons.mp h with ⟨hr, ht⟩
    rw [updateFirst]
    by_cases hp : p r = true
    · rw [if_pos hp]
      refine List.pairwise_cons.mpr ⟨fun b hb => ?_, ht⟩
      rw [hf r]
      exact hr b hb
    · rw [if_neg hp]
      refine List.pairwise_cons.mpr ⟨fun b hb => ?_, ih ht⟩
      rcases updateFirst_mem hb with h' | ⟨a, ha, hfa⟩
      · exact hr b h'
      · rw [hfa, hf a]
        exact hr a (List.mem_of_find?_eq_some ha)

lemma keyOf_successUpdate (raw : String) (dur : ℚ) (now : Nat) (r : CacheRow) :
    keyOf (successUpdate raw dur now r) = keyOf r := rfl

lemma find?_none_key {table : List CacheRow} {sid : String} {n : Nat}
    (hfind : table.find? (rowKeyMatches sid n) = none) :
    ∀ a ∈ table, ¬(a.session_id = sid ∧ a.chunk_number = n) := by
  intro a ha hk
  have := List.find?_eq_none.mp hfind a ha
  simp [rowKeyMatches, hk.1, hk.2] at this

lemma uniqueKeys_append_new {table : List CacheRow} {sid : String} {n : Nat}
    (h : UniqueKeys table)
    (hfind : table.find? (rowKeyMatches sid n) = none)
    (newRow : CacheRow) (hkey : keyOf newRow = (sid, n)) :
    UniqueKeys (table ++ [newRow]) := by
  refine List.pairwise_append.mpr ⟨h, List.pairwise_singleton _ _, ?_⟩
  intro a ha b hb
  have hb' : b = newRow := by simpa using hb
  subst hb'
  rw [hkey]
  intro hak
  exact find?_none_key hfind a ha ⟨congrArg Prod.fst hak, congrArg Prod.snd hak⟩

/-- C8: cache population is idempotent and preserves the unique constraint.
If the `(session_id, chunk_number)` row already has `transcribed_at` set,
re-running `transcribe_chunk_background` performs no write (any outcome of
the external call included — it is never made before the early return); and
for every outcome the operation preserves "at most one row per
`(session_id, chunk_number)`". -/
theorem c8_cache_idempotent_unique :
    (∀ (table : List CacheRow) (sid : String) (n : Nat) (dur : ℚ) (now : Nat)
        (outcome : Except String String) (existing : CacheRow),
      table.find? (rowKeyMatches sid n) = some existing →
      existing.transcribed_at.isSome = true →
      transcribeChunkBackground table sid n dur now outcome = table) ∧
    (∀ (table : List CacheRow) (sid : String) (n : Nat) (dur : ℚ) (now : Nat)
        (outcome : Except String String),
      UniqueKeys table → UniqueKeys (transcribeChunkBackground table sid n dur now outcome)) := by
  constructor
  · intro table sid n dur now outcome existing hfind hts
    unfold transcribeChunkBackground
    rw [hfind]
    simp [hts]
  · intro table sid n dur now outcome h
    unfold transcribeChunkBackground
    cases hfind : table.find? (rowKeyMatches sid n) with
    | some existing =>
      by_cases hts : existing.transcribed_at.isSome = true
      · simp [hts, h]
      · cases outcome with
        | ok raw =>
          simp only [Bool.not_eq_true] at hts
          simp only [hts, Bool.false_eq_true, if_false]
          exact updateFirst_uniqueKeys (rowKeyMatches sid n) (successUpdate raw dur now)
            (fun r => rfl) table h
        | error e =>
          simp only [Bool.not_eq_true] at hts
          simp only [hts, Bool.false_eq_true, if_false]
          exact updateFirst_uniqueKeys (rowKeyMatches sid n)
            (fun r => { r with error_message := some (truncate500 e) }) (fun r => rfl) table h
    | none =>
      cases outcome with
      | ok raw => exact uniqueKeys_append_new h hfind _ rfl
      | error e => exact uniqueKeys_append_new h hfind _ rfl

theorem c8_witness :
    transcribeChunkBackground [exampleRow1] "s" 1 30 5 (.ok "hi") = [exampleRow1] ∧
    UniqueKeys (transcribeChunkBackground [exampleRow1] "s" 1 30 5 (.ok "hi")) :=
  ⟨c8_cache_idempotent_unique.1 [exampleRow1] "s" 1 30 5 (.ok "hi") exampleRow1
      (by decide) (by decide),
   c8_cache_idempotent_unique.2 [exampleRow1] "s" 1 30 5 (.ok "hi")
      (List.pairwise_singleton _ _)⟩

/-- C9: a cache row with `transcribed_at = null` or a non-null
`error_message` is never treated as a cache hit.  First, the lookup used
during full-session processing (`get_cached_transcriptions`) only returns
rows with `transcribed_at` set; second, the cache-population transition
preserves the invariant that such rows carry no error message, so no row the
lookup returns has `transcribed_at = null` or a non-null error message. -/
theorem c9_no_error_cache_hits :
    (∀ (table : List CacheRow) (sid : String), ErrorFree table →
      ∀ r ∈ getCachedTranscriptions table sid,
        r.transcribed_at ≠ none ∧ r.error_message = none) ∧
    (∀ (table : List CacheRow) (sid : String) (n : Nat) (dur : ℚ) (now : Nat)
        (outcome : Except String String),
      ErrorFree table → ErrorFree (transcribeChunkBackground table sid n dur now outcome)) := by
  constructor
  · intro table sid hEF r hr
    have hmem := List.mem_filter.mp hr
    have hcond : r.session_id == sid && r.transcribed_at.isSome := hmem.2
    have hts : r.transcribed_at.isSome = true := by
      have := Bool.and_elim_right hcond
      simpa using this
    refine ⟨Option.ne_none_iff_isSome.mpr hts, hEF r hmem.1 hts⟩
  · intro table sid n dur now outcome hEF
    unfold transcribeChunkBackground
    cases hfind : table.find? (rowKeyMatches sid n) with
    | some existing =>
      by_cases hts : existing.transcribed_at.isSome = true
      · simpa [hts] using hEF
      · simp only [Bool.not_eq_true] at hts
        simp only [hts, Bool.false_eq_true, if_false]
        cases outcome with
        | ok raw =>
          intro b hb
          rcases updateFirst_mem hb with h' | ⟨a, _, hfa⟩
          · exact hEF b h'
          · intro _
            rw [hfa]
            rfl
        | error e =>
          intro b hb
          rcases updateFirst_mem hb with h' | ⟨a, ha, hfa⟩
          · exact hEF b h'
          · intro hsome
            rw [hfind] at ha
            cases ha
            rw [hfa] at hsome
            have : existing.transcribed_at.isSome = true := hsome
            rw [hts] at this
            cases this
    | none =>
      cases outcome with
      | ok raw =>
        intro b hb
        rcases List.mem_append.mp hb with h' | h'
        · exact hEF b h'
        · have hb' : b = successUpdate raw dur now { session_id := sid, chunk_number := n } := by
            simpa using h'
          intro _
          rw [hb']
          rfl
      | error e =>
        intro b hb
        rcases List.mem_append.mp hb with h' | h'
        · exact hEF b h'
        · have hb' : b = ({ session_id := sid, chunk_number := n, error_message := some (truncate500 e) } : CacheRow) := by
            simpa using h'
          intro hsome
          rw [hb'] at hsome
          cases hsome

/-! ### C3 — progress monotonicity and stage bounds -/

lemma updateProgressVal_transcribing (p : Nat) :
    updateProgressVal "transcribing" p = 40 + 45 * p / 100 := rfl

lemma transcribing_mono {p q : Nat} (h : p ≤ q) :
    updateProgressVal "transcribing" p ≤ updateProgressVal "transcribing" q := by
  rw [updateProgressVal_transcribing, updateProgressVal_transcribing]
  exact Nat.add_le_add_left (Nat.div_le_div_right (Nat.mul_le_mul_left _ h)) _

lemma transcribing_le_85 {p : Nat} (h : p ≤ 100) :
    updateProgressVal "transcribing" p ≤ 85 :=
  le_trans (transcribing_mono h) (le_of_eq rfl)

lemma transcribing_ge_40 (p : Nat) : 40 ≤ updateProgressVal "transcribing" p := by
  rw [updateProgressVal_transcribing]
  exact Nat.le_add_right _ _

lemma cachedStageLocal_le_100 (c u : Nat) : cachedStageLocal c (c + u) ≤ 100 := by
  rw [cachedStageLocal]
  have h1 : 0 < max (c + u) 1 := lt_of_lt_of_le Nat.one_pos (le_max_right _ _)
  have hc : c * 100 ≤ max (c + u) 1 * 100 :=
    Nat.mul_le_mul_right _ (le_trans (Nat.le_add_right c u) (le_max_left _ _))
  calc c * 100 / max (c + u) 1 ≤ max (c + u) 1 * 100 / max (c + u) 1 :=
        Nat.div_le_div_right hc
    _ = 100 := Nat.mul_div_cancel_left 100 h1

lemma resultStageLocal_le_100 (c u i : Nat) (h : i < u) :
    resultStageLocal c (c + u) i ≤ 100 := by
  rw [resultStageLocal]
  have h0 : 0 < c + u := by omega
  have hm : (c + i + 1) * 100 ≤ (c + u) * 100 := Nat.mul_le_mul_right _ (by omega)
  calc (c + i + 1) * 100 / (c + u) ≤ (c + u) * 100 / (c + u) := Nat.div_le_div_right hm
    _ = 100 := Nat.mul_div_cancel_left 100 h0

lemma cachedStageLocal_le_resultStageLocal (c u i : Nat) (h : i < u) :
    cachedStageLocal c (c + u) ≤ resultStageLocal c (c + u) i := by
  rw [cachedStageLocal, resultStageLocal, max_eq_left (show 1 ≤ c + u by omega)]
  exact Nat.div_le_div_right (Nat.mul_le_mul_right _ (by omega))

lemma resultStageLocal_mono (c t : Nat) {i j : Nat} (h : i ≤ j) :
    resultStageLocal c t i ≤ resultStageLocal c t j :=
  Nat.div_le_div_right (Nat.mul_le_mul_right _ (by omega))

lemma updateProgressVal_lt_upper (stage : String) (hstage : stage ∈ stageNames)
    (p : Nat) (hp : p < 100) : updateProgressVal stage p < (PROGRESS_STAGES stage).2 := by
  have key : ∀ s2 k : Nat, 0 < k → s2 + k * p / 100 < s2 + k := by
    intro s2 k hk
    have h1 : k * p ≤ k * 99 := Nat.mul_le_mul_left _ (by omega)
    have h2 : k * p / 100 ≤ k * 99 / 100 := Nat.div_le_div_right h1
    have h3 : k * 99 / 100 < k := Nat.div_lt_of_lt_mul (by omega)
    omega
  fin_cases hstage
  · exact key 0 10 (by norm_num)
  · exact key 10 30 (by norm_num)
  · exact key 40 45 (by norm_num)
  · exact key 85 10 (by norm_num)
  · exact key 95 5 (by norm_num)

/-- C3: during one processing run the sequence of progress values written to
the database is non-decreasing (both for the full run, whatever the split
into cached/uncached segments and whichever uncached results fail, and for
the zero-segment short-circuit run), the stage sub-ranges are exactly those
claimed, and while a stage is active every written value stays strictly
below the upper bound of the stage's sub-range until the stage reports
100%. -/
theorem c3_progress_monotone (c u : Nat) (succ : List Nat)
    (hinc : succ.Pairwise (· < ·)) (hlt : ∀ i ∈ succ, i < u) :
    (runProgressWrites c u succ).Chain' (· ≤ ·) ∧
    shortCircuitWrites.Chain' (· ≤ ·) ∧
    (PROGRESS_STAGES "concatenating" = (0, 10) ∧ PROGRESS_STAGES "diarizing" = (10, 40) ∧
     PROGRESS_STAGES "transcribing" = (40, 85) ∧ PROGRESS_STAGES "saving_results" = (85, 95) ∧
     PROGRESS_STAGES "generating_samples" = (95, 100)) ∧
    (∀ stage ∈ stageNames, ∀ p < 100,
      updateProgressVal stage p < (PROGRESS_STAGES stage).2) := by
  have htc85 : updateProgressVal "transcribing" (cachedStageLocal c (c + u)) ≤ 85 :=
    transcribing_le_85 (cachedStageLocal_le_100 c u)
  have hf85 : ∀ i ∈ succ, updateProgressVal "transcribing" (resultStageLocal c (c + u) i) ≤ 85 :=
    fun i hi => transcribing_le_85 (resultStageLocal_le_100 c u i (hlt i hi))
  have htcf : ∀ i ∈ succ,
      updateProgressVal "transcribing" (cachedStageLocal c (c + u)) ≤
        updateProgressVal "transcribing" (resultStageLocal c (c + u) i) :=
    fun i hi => transcribing_mono (cachedStageLocal_le_resultStageLocal c u i (hlt i hi))
  have hchainB : List.Chain' (fun x1 x2 => x1 ≤ x2) [85, 85, 85, 95, 95, 100, 100] := by
    simp only [List.chain'_cons, List.chain'_singleton, and_true]
    norm_num
  have hshort : shortCircuitWrites.Chain' (· ≤ ·) := by
    show List.Chain' (· ≤ ·) [0, 0, 10, 10, 40, 100]
    simp only [List.chain'_cons, List.chain'_singleton, and_true]
    norm_num
  refine ⟨?_, hshort, ⟨rfl, rfl, rfl, rfl, rfl⟩, updateProgressVal_lt_upper⟩
  show List.Chain' (· ≤ ·)
    ([0, 0, 10, 10, 40, 40, updateProgressVal "transcribing" (cachedStageLocal c (c + u))]
      ++ succ.map (fun i => updateProgressVal "transcribing" (resultStageLocal c (c + u) i))
      ++ [85, 85, 85, 95, 95, 100, 100])
  rw [List.chain'_append]
  refine ⟨?_, hchainB, ?_⟩
  · rw [List.chain'_append]
    refine ⟨?_, ?_, ?_⟩
    · simp only [List.chain'_cons, List.chain'_singleton, and_true]
      refine ⟨le_refl 0, by norm_num, le_refl 10, by norm_num, le_refl 40,
        transcribing_ge_40 _⟩
    · exact (hinc.map _ (fun a b hab =>
        transcribing_mono (resultStageLocal_mono c (c + u) (le_of_lt hab)))).chain'
    · intro x hx y hy
      have hx' : x = updateProgressVal "transcribing" (cachedStageLocal c (c + u)) := by
        have : ([0, 0, 10, 10, 40, 40,
            updateProgressVal "transcribing" (cachedStageLocal c (c + u))]).getLast? =
            some (updateProgressVal "transcribing" (cachedStageLocal c (c + u))) := rfl
        rw [this] at hx
        exact (Option.mem_some_iff.mp hx).symm
      cases succ with
      | nil => simp at hy
      | cons i is =>
        have hy' : updateProgressVal "transcribing" (resultStageLocal c (c + u) i) = y := by
          simpa using hy
        rw [hx', ← hy']
        exact htcf i (List.mem_cons_self _ _)
  · intro x hx y hy
    have hy' : (85 : Nat) = y := by simpa using hy
    rw [← hy']
    have hxmem : x ∈ [0, 0, 10, 10, 40, 40,
        updateProgressVal "transcribing" (cachedStageLocal c (c + u))]
        ++ succ.map (fun i => updateProgressVal "transcribing" (resultStageLocal c (c + u) i)) :=
      List.mem_of_getLast?_eq_some hx
    rcases List.mem_append.mp hxmem with hA | hM
    · simp only [List.mem_cons, List.not_mem_nil, or_false] at hA
      rcases hA with h | h | h | h | h | h | h
      · omega
      · omega
      · omega
      · omega
      · omega
      · omega
      · rw [h]
        exact htc85
    · rcases List.mem_map.mp hM with ⟨i, hi, hfi⟩
      rw [← hfi]
      exact hf85 i hi

theorem c3_witness :
    (runProgressWrites 1 2 [0, 1]).Chain' (· ≤ ·) ∧
    shortCircuitWrites.Chain' (· ≤ ·) ∧
    (PROGRESS_STAGES "concatenating" = (0, 10) ∧ PROGRESS_STAGES "diarizing" = (10, 40) ∧
     PROGRESS_STAGES "transcribing" = (40, 85) ∧ PROGRESS_STAGES "saving_results" = (85, 95) ∧
     PROGRESS_STAGES "generating_samples" = (95, 100)) ∧
    (∀ stage ∈ stageNames, ∀ p < 100,
      updateProgressVal stage p < (PROGRESS_STAGES stage).2) :=
  c3_progress_monotone 1 2 [0, 1] (by decide) (by decide)

/-! ### C4 — speaker roster and word-count rows -/

/-- All stored word counts are positive. -/
def CountsPos (m : WordCounts) : Prop := ∀ p ∈ m, 0 < p.2

/-- All stored per-speaker word counts are positive. -/
def SpeakerPos (sc : SpeakerCounts) : Prop := ∀ q ∈ sc, CountsPos q.2

lemma countTargetWordsL_pos (t : List Char) : CountsPos (countTargetWordsL t) := by
  intro p hp
  rw [countTargetWordsL] at hp
  by_cases ht : t.isEmpty
  · rw [if_pos ht] at hp
    cases hp
  · rw [if_neg ht] at hp
    rcases List.mem_filterMap.mp hp with ⟨w, _, hw⟩
    by_cases hn : 0 < countOcc w.toList (normalizeForMatching (t.map Char.toLower))
    · rw [if_pos hn] at hw
      cases hw
      exact hn
    · rw [if_neg hn] at hw
      cases hw

lemma countTargetWords_pos (t : String) : CountsPos (countTargetWords t) :=
  countTargetWordsL_pos t.toList

lemma addCount_pos {m : WordCounts} {w : String} {n : Nat}
    (hm : CountsPos m) (hn : 0 < n) : CountsPos (addCount m w n) := by
  induction m with
  | nil =>
    intro p hp
    rcases List.mem_singleton.mp hp with h
    rw [h]
    exact hn
  | cons x xs ih =>
    rcases x with ⟨w', c⟩
    rw [addCount]
    by_cases hw : w' = w
    · rw [if_pos hw]
      intro p hp
      rcases List.mem_cons.mp hp with h | h
      · rw [h]
        have := hm (w', c) (List.mem_cons_self _ _)
        simpa using Nat.lt_of_lt_of_le this (Nat.le_add_right _ _)
      · exact hm p (List.mem_cons_of_mem _ h)
    · rw [if_neg hw]
      intro p hp
      rcases List.mem_cons.mp hp with h | h
      · rw [h]
        exact hm (w', c) (List.mem_cons_self _ _)
      · exact ih (fun q hq => hm q (List.mem_cons_of_mem _ hq)) p h

lemma addCounts_pos {m wc : WordCounts} (hm : CountsPos m) (hwc : CountsPos wc) :
    CountsPos (addCounts m wc) := by
  induction wc generalizing m with
  | nil => exact hm
  | cons p ps ih =>
    rw [addCounts, List.foldl_cons]
    exact ih (addCount_pos hm (hwc p (List.mem_cons_self _ _)))
      (fun q hq => hwc q (List.mem_cons_of_mem _ hq))

lemma addSpeakerEntry_pos {sc : SpeakerCounts} {sid : String} {wc : WordCounts}
    (hsc : SpeakerPos sc) (hwc : CountsPos wc) : SpeakerPos (addSpeakerEntry sc sid wc) := by
  induction sc with
  | nil =>
    intro q hq
    rcases List.mem_singleton.mp hq with h
    rw [h]
    exact addCounts_pos (fun p hp => absurd hp (List.not_mem_nil p)) hwc
  | cons x xs ih =>
    rcases x with ⟨s, m⟩
    rw [addSpeakerEntry]
    by_cases hs : s = sid
    · rw [if_pos hs]
      intro q hq
      rcases List.mem_cons.mp hq with h | h
      · rw [h]
        exact addCounts_pos (hsc (s, m) (List.mem_cons_self _ _)) hwc
      · exact hsc q (List.mem_cons_of_mem _ h)
    · rw [if_neg hs]
      intro q hq
      rcases List.mem_cons.mp hq with h | h
      · rw [h]
        exact hsc (s, m) (List.mem_cons_self _ _)
      · exact ih (fun r hr => hsc r (List.mem_cons_of_mem _ hr)) q h

lemma addSpeakerCounts_pos {sc : SpeakerCounts} {sid : String} {wc : WordCounts}
    (hsc : SpeakerPos sc) (hwc : CountsPos wc) : SpeakerPos (addSpeakerCounts sc sid wc) := by
  rw [addSpeakerCounts]
  by_cases h : wc.isEmpty
  · rw [if_pos h]
    exact hsc
  · rw [if_neg h]
    exact addSpeakerEntry_pos hsc hwc

lemma processCachedSegments_pos {acc : SpeakerCounts}
    (l : List (SpeakerSegment × String)) (hacc : SpeakerPos acc) :
    SpeakerPos (processCachedSegments acc l) := by
  induction l generalizing acc with
  | nil => exact hacc
  | cons p ps ih =>
    rw [processCachedSegments, List.foldl_cons]
    exact ih (addSpeakerCounts_pos hacc (countTargetWords_pos _))

lemma processUncachedSegments_pos {acc : SpeakerCounts} (l : List SpeakerSegment)
    (oracle : SpeakerSegment → Except String String) (hacc : SpeakerPos acc) :
    SpeakerPos (processUncachedSegments acc l oracle) := by
  induction l generalizing acc with
  | nil => exact hacc
  | cons seg segs ih =>
    rw [processUncachedSegments, List.foldl_cons]
    apply ih
    rcases horacle : oracle seg with e | raw
    · simpa [transcribeSegmentResult, horacle, addSpeakerCounts] using hacc
    · have : transcribeSegmentResult oracle seg = (seg.speaker_id, segmentCounts raw) := by
        simp [transcribeSegmentResult, horacle]
      rw [this]
      exact addSpeakerCounts_pos hacc (countTargetWords_pos _)

lemma transcribeAndCountAgg_pos (cached : Nat → Option CacheRow) (chunks : List AudioChunk)
    (segments : List SpeakerSegment) (oracle : SpeakerSegment → Except String String) :
    SpeakerPos (transcribeAndCountAgg cached chunks segments oracle) := by
  rw [transcribeAndCountAgg]
  exact processUncachedSegments_pos _ _
    (processCachedSegments_pos _ (fun q hq => absurd hq (List.not_mem_nil q)))

lemma lookup_mem_speakerCounts {sr : SpeakerCounts} {sid : String} {wc : WordCounts}
    (h : sr.lookup sid = some wc) : ∃ k, (k, wc) ∈ sr := by
  induction sr with
  | nil => cases h
  | cons x xs ih =>
    rcases x with ⟨k, v⟩
    rw [List.lookup] at h
    cases hk : (sid == k) with
    | true =>
      simp only [hk] at h
      cases h
      exact ⟨k, List.mem_cons_self _ _⟩
    | false =>
      simp only [hk] at h
      rcases ih h with ⟨k', hk'⟩
      exact ⟨k', List.mem_cons_of_mem _ hk'⟩

lemma lookupCounts_pos {sr : SpeakerCounts} (hsr : SpeakerPos sr) (sid : String) :
    CountsPos (lookupCounts sr sid) := by
  rw [lookupCounts]
  cases h : sr.lookup sid with
  | none => exact fun p hp => absurd hp (List.not_mem_nil p)
  | some wc =>
    rcases lookup_mem_speakerCounts h with ⟨k, hk⟩
    exact hsr (k, wc) hk

lemma mkSpeakerRow_label (sr : SpeakerCounts) (segments : List SpeakerSegment) (sid : String) :
    (mkSpeakerRow sr segments sid).speaker_label = sid := rfl

lemma mkSpeakerRow_segment_count (sr : SpeakerCounts) (segments : List SpeakerSegment)
    (sid : String) (hsid : sid ∈ segments.map SpeakerSegment.speaker_id) :
    (mkSpeakerRow sr segments sid).segment_count =
      (segments.filter (fun t => t.speaker_id == sid)).length := by
  rcases List.mem_map.mp hsid with ⟨t, ht, hts⟩
  have hmem : t ∈ segments.filter (fun u => u.speaker_id == sid) :=
    List.mem_filter.mpr ⟨ht, by simp [hts]⟩
  have hpos : 0 < (segments.filter (fun u => u.speaker_id == sid)).length :=
    List.length_pos.mpr (List.ne_nil_of_mem hmem)
  show (if 0 < (segments.filter (fun u => u.speaker_id == sid)).length then
    (segments.filter (fun u => u.speaker_id == sid)).length
    else ((lookupCounts sr sid).map Prod.snd).sum) = _
  rw [if_pos hpos]

/-- C4: after a full pipeline run, every speaker id present in the
diarization result yields exactly one `SessionSpeaker` row (even when it has
no aggregated word counts), that row's segment count is the number of
diarized segments carrying this speaker id, and every inserted
`SpeakerWordCount` row has a non-zero count. -/
theorem c4_speaker_rows (cached : Nat → Option CacheRow) (chunks : List AudioChunk)
    (segments : List SpeakerSegment) (oracle : SpeakerSegment → Except String String)
    (sid : String) (hsid : sid ∈ segments.map SpeakerSegment.speaker_id) :
    ((saveSpeakerResults (transcribeAndCountAgg cached chunks segments oracle) segments).1.filter
        (fun r => r.speaker_label == sid)).length = 1 ∧
    (∀ r ∈ (saveSpeakerResults (transcribeAndCountAgg cached chunks segments oracle) segments).1,
      r.speaker_label = sid →
        r.segment_count = (segments.filter (fun t => t.speaker_id == sid)).length) ∧
    (∀ wr ∈ (saveSpeakerResults (transcribeAndCountAgg cached chunks segments oracle) segments).2,
      0 < wr.count) := by
  set sr := transcribeAndCountAgg cached chunks segments oracle with hsr
  have hnodup : (allSpeakerIds sr segments).Nodup := List.nodup_dedup _
  have hmemids : sid ∈ allSpeakerIds sr segments := by
    rw [allSpeakerIds, List.mem_dedup]
    exact List.mem_append_right _ hsid
  refine ⟨?_, ?_, ?_⟩
  · show (((allSpeakerIds sr segments).map (mkSpeakerRow sr segments)).filter
      (fun r => r.speaker_label == sid)).length = 1
    rw [List.filter_map, List.length_map]
    rw [List.filter_congr (fun a _ =>
      (rfl : ((fun r => r.speaker_label == sid) ∘ mkSpeakerRow sr segments) a = (a == sid)))]
    rw [← List.countP_eq_length_filter]
    have := List.count_eq_one_of_mem hnodup hmemids
    simpa [List.count] using this
  · intro r hr hlabel
    rcases List.mem_map.mp hr with ⟨i, _, hi⟩
    have : i = sid := by
      rw [← hlabel, ← hi, mkSpeakerRow_label]
    rw [← hi, this]
    exact mkSpeakerRow_segment_count sr segments sid hsid
  · intro wr hwr
    rcases List.mem_flatMap.mp hwr with ⟨i, _, hwri⟩
    rcases List.mem_map.mp hwri with ⟨p, hp, hpw⟩
    have hpos := lookupCounts_pos (hsr ▸ transcribeAndCountAgg_pos cached chunks segments oracle)
      i p hp
    rw [← hpw]
    exact hpos

theorem c4_witness :
    ((saveSpeakerResults
        (transcribeAndCountAgg noCache [] [⟨"S0", 0, 1⟩] alwaysFail) [⟨"S0", 0, 1⟩]).1.filter
        (fun r => r.speaker_label == "S0")).length = 1 ∧
    (∀ r ∈ (saveSpeakerResults
        (transcribeAndCountAgg noCache [] [⟨"S0", 0, 1⟩] alwaysFail) [⟨"S0", 0, 1⟩]).1,
      r.speaker_label = "S0" →
        r.segment_count = (([⟨"S0", 0, 1⟩] : List SpeakerSegment).filter
          (fun t => t.speaker_id == "S0")).length) ∧
    (∀ wr ∈ (saveSpeakerResults
        (transcribeAndCountAgg noCache [] [⟨"S0", 0, 1⟩] alwaysFail) [⟨"S0", 0, 1⟩]).2,
      0 < wr.count) :=
  c4_speaker_rows noCache [] [⟨"S0", 0, 1⟩] alwaysFail "S0" (by simp)

theorem c9_witness :
    (∀ r ∈ getCachedTranscriptions [exampleRow1] "s",
      r.transcribed_at ≠ none ∧ r.error_message = none) ∧
    ErrorFree (transcribeChunkBackground [exampleRow1] "s" 2 30 5 (.error "bad")) :=
  ⟨c9_no_error_cache_hits.1 [exampleRow1] "s"
      (fun r hr _ => by rw [List.mem_singleton.mp hr]; rfl),
   c9_no_error_cache_hits.2 [exampleRow1] "s" 2 30 5 (.error "bad")
      (fun r hr _ => by rw [List.mem_singleton.mp hr]; rfl)⟩

end HackRoll
